import Mathlib

/-!
Shallow embedding of `src/sitemap-crawler.py` (class `SitemapCrawler`).

The transport client, the XML parser and the HTML title extractor are
external collaborators; we model their observable behaviour abstractly:
a fetched body is an abstract byte content that is either a well-formed
sitemap document, empty, or malformed, possibly wrapped in a gzip
encoding.  Everything the crawler itself does (queueing, classification,
deduplication, per-language visited tracking, outcome classification,
summary aggregation) is translated line by line from the source.
-/

namespace SitemapCrawler

/-- Abstract content of a sitemap document after XML parsing, as
`parse_sitemap` distinguishes it:
* `empty`     — empty byte string (falsy `content` in Python);
* `malformed` — non-empty bytes that `ET.fromstring` rejects
  (the `except` branch of `parse_sitemap`);
* `index locs`  — root tag `sitemapindex`; `locs` are the non-empty
  `<sitemap><loc>` texts in document order;
* `urlset locs` — any other well-formed root; `locs` are the non-empty
  `<url><loc>` texts in document order. -/
inductive XmlDoc where
  | empty
  | malformed
  | index (locs : List String)
  | urlset (locs : List String)
deriving DecidableEq

/-- Raw response body: either plain bytes of a document, or the gzip
compression of a document's bytes. -/
inductive Body where
  | plain (d : XmlDoc)
  | gzipped (d : XmlDoc)
deriving DecidableEq

/-- Result of one `requests.get` on the sitemap-fetch path, after
`raise_for_status`: `err` covers any exception (transport failure or a
non-2xx status), `ok` carries whether the response declared
`Content-Encoding: gzip` together with the body. -/
inductive FetchOutcome where
  | err
  | ok (gzipEnc : Bool) (body : Body)

/-- The network, as seen by the sitemap-fetch path: what one GET of each
location returns during this run. -/
def World := String → FetchOutcome

/-- Model of Python's `url.endswith('.gz')`: the last three characters
of `url` are `.gz`. -/
def ends_with_gz (u : String) : Bool :=
  u.data.reverse.take 3 == ['z', 'g', '.']

/-- `SitemapCrawler.fetch_url` (lines 45-64): GET the location, return
`none` on any exception; if the response declares gzip content-encoding
or the location ends in `.gz`, gunzip the body before returning it
(gunzipping a non-gzip body raises, hence `none`).  A gzip body returned
raw (not flagged for decompression) is not well-formed XML, so at the
parse stage it behaves as `malformed`. -/
def fetch_url (w : World) (url : String) : Option XmlDoc :=
  match w url with
  | .err => none
  | .ok gzipEnc body =>
    if gzipEnc || ends_with_gz url then
      match body with
      | .gzipped d => some d
      | .plain _ => none
    else
      match body with
      | .plain d => some d
      | .gzipped _ => some .malformed

/-- Return value of `parse_sitemap`: the code returns a bare list `[]`
for falsy content (line 69), and otherwise a pair `(urls, is_index)`. -/
inductive ParseResult where
  | bare (urls : List String)
  | pair (urls : List String) (isIndex : Bool)
deriving DecidableEq

/-- `SitemapCrawler.parse_sitemap` (lines 66-96): falsy content returns
the bare `[]`; a `sitemapindex` root returns its sitemap locations with
`is_index = True`; any other well-formed root returns its url locations
with `is_index = False`; a parse exception returns `([], False)`. -/
def parse_sitemap (content : XmlDoc) : ParseResult :=
  match content with
  | .empty => .bare []
  | .malformed => .pair [] false
  | .index locs => .pair locs true
  | .urlset locs => .pair locs false

/-- Python tuple unpacking `urls, is_index = parse_sitemap(content)`
(line 111): unpacking a bare list of the wrong arity raises
(`none` = uncaught `ValueError`). -/
def unpack2 (r : ParseResult) : Option (List String × Bool) :=
  match r with
  | .bare _ => none
  | .pair us b => some (us, b)

/-- Observable outcome of the `get_urls_from_sitemap` loop:
`result urls pops fails sleeps` is a normal return carrying the final
deduplicated url list, the number of dequeue iterations (`pop(0)`), the
number of iterations that hit `continue` after a failed/empty fetch, and
the number of `time.sleep(self.delay)` calls executed.  `crash` is an
uncaught exception escaping the loop. -/
inductive LoopOut where
  | result (urls : List String) (pops fails sleeps : Nat)
  | crash
deriving DecidableEq

/-- The `while urls_to_process:` loop of `get_urls_from_sitemap`
(lines 103-128), fueled for termination: pop the front of the queue,
fetch; on falsy content `continue` (skipping the sleep); otherwise
unpack `parse_sitemap`'s result; an index extends the back of the queue,
a regular sitemap extends the output accumulator; then sleep.  When the
queue drains, return `list(set(all_page_urls))`, modelled by
`List.dedup` (order of the distinct elements is irrelevant to the
caller).  `none` = fuel exhausted (the loop would still be running). -/
def resolveLoop (w : World) :
    List String → List String → Nat → Nat → Nat → Nat → Option LoopOut
  | [], acc, pops, fails, sleeps, _ => some (.result acc.dedup pops fails sleeps)
  | _ :: _, _, _, _, _, 0 => none
  | u :: rest, acc, pops, fails, sleeps, fuel + 1 =>
    match fetch_url w u with
    | none => resolveLoop w rest acc (pops + 1) (fails + 1) sleeps fuel
    | some .empty => resolveLoop w rest acc (pops + 1) (fails + 1) sleeps fuel
    | some doc =>
      match unpack2 (parse_sitemap doc) with
      | none => some .crash
      | some (locs, true) => resolveLoop w (rest ++ locs) acc (pops + 1) fails (sleeps + 1) fuel
      | some (locs, false) => resolveLoop w rest (acc ++ locs) (pops + 1) fails (sleeps + 1) fuel

/-- `SitemapCrawler.get_urls_from_sitemap` (lines 98-128): run the loop
from the queue seeded with the root sitemap location. -/
def get_urls_from_sitemap (w : World) (root : String) (fuel : Nat) : Option LoopOut :=
  resolveLoop w [root] [] 0 0 0 fuel

/-- Child sitemap locations the loop enqueues when processing `u`:
non-empty only when the fetch succeeds and yields an index document. -/
def childLocs (w : World) (u : String) : List String :=
  match fetch_url w u with
  | some (.index locs) => locs
  | _ => []

/-- Page urls the loop accumulates when processing `u`: non-empty only
when the fetch succeeds and yields a url-set document. -/
def pageLocs (w : World) (u : String) : List String :=
  match fetch_url w u with
  | some (.urlset locs) => locs
  | _ => []

/-- Reachability in the sitemap hierarchy: `v` is reachable from `u` by
following child-sitemap links. -/
inductive Reach (w : World) : String → String → Prop where
  | refl (u : String) : Reach w u u
  | step {u c v : String} : c ∈ childLocs w u → Reach w c v → Reach w u v

/-- The hierarchy below `u` is acyclic with every chain of child links
shorter than `d` (so in particular finite in depth). -/
def depthBelow (w : World) : Nat → String → Bool
  | 0, _ => false
  | d + 1, u => (childLocs w u).all (depthBelow w d)

/-- Number of loop iterations needed to exhaust the subtree rooted at
`u`, counting repeated references with multiplicity, measured to depth
`d`. -/
def fuelFor (w : World) : Nat → String → Nat
  | 0, _ => 0
  | d + 1, u => 1 + ((childLocs w u).map (fuelFor w d)).sum

/-- The module-level `LANGUAGES` dict (lines 26-33), in insertion
order: display name paired with the Accept-Language header value. -/
def LANGUAGES : List (String × String) :=
  [("French", "fr,fr-FR;q=0.9"),
   ("German", "de,de-DE;q=0.9"),
   ("Dutch", "nl,nl-NL;q=0.9"),
   ("Polish", "pl,pl-PL;q=0.9"),
   ("Swedish", "sv,sv-SE;q=0.9"),
   ("Finnish", "fi,fi-FI;q=0.9")]

/-- Result of one `requests.get` on the page-visit path: `exc` is an
exception raised during the call; `resp status titleElem` is a response
with the given status code, whose HTML body has `titleElem = none` when
no `<title>` element exists and `titleElem = some t` when one exists
with string content `t` (`t = none` models Python `None`). -/
inductive PageResponse where
  | exc
  | resp (status : Nat) (titleElem : Option (Option String))

/-- The network, as seen by page visits: the response to one GET of a
url under a given Accept-Language header value. -/
def PageWorld := String → String → PageResponse

/-- Line 157: `title = soup.title.string if soup.title else "No title"`.
`none` in the result models Python `None`. -/
def extract_title (titleElem : Option (Option String)) : Option String :=
  match titleElem with
  | none => some "No title"
  | some t => t

/-- Classification of one performed page visit. -/
inductive VisitOutcome where
  | success (title : Option String)
  | httpFailure (status : Nat)
  | transportError
deriving DecidableEq

/-- Logging levels used by the crawler. -/
inductive LogLevel where
  | debug
  | info
  | warning
  | error
deriving DecidableEq

/-- Level at which `visit_url` logs each outcome: success at info
(line 153), a non-200 status at warning (line 163), an exception at
error (line 166). -/
def logLevelOf (o : VisitOutcome) : LogLevel :=
  match o with
  | .success _ => .info
  | .httpFailure _ => .warning
  | .transportError => .error

/-- State of `self.visited_urls` (a dict from language name to a set of
urls), flattened to the list of (language name, url) pairs it contains,
most recently added first. -/
abbrev Visited := List (String × String)

/-- `SitemapCrawler.visit_url` (lines 130-166): if the url is already in
the language's visited set, return early (`none`: no network call);
otherwise add the pair to the visited set, then perform the GET and
classify: an exception is a transport error, status 200 is a success
carrying the extracted title, any other status is an HTTP failure.  The
per-thread interleaving of the real `ThreadPoolExecutor` is not
modelled; the check-and-mark on the visited set is taken as atomic. -/
def visit_url (w : PageWorld) (st : Visited) (url langName langHeader : String) :
    Visited × Option VisitOutcome :=
  if (langName, url) ∈ st then
    (st, none)
  else
    let st' : Visited := (langName, url) :: st
    match w url langHeader with
    | .exc => (st', some .transportError)
    | .resp status titleElem =>
      if status = 200 then (st', some (.success (extract_title titleElem)))
      else (st', some (.httpFailure status))

/-- One scheduling event: `visit_url` was called on `(url, lang)` and
returned `outcome` (`none` when it skipped an already-visited pair
without a network call). -/
structure VisitEvent where
  url : String
  lang : String
  outcome : Option VisitOutcome

/-- The language loop of `process_url_with_all_languages` (lines
170-173), over an explicit language list: visit the url once per
language, in order, threading the visited state. -/
def processLangs (w : PageWorld) (url : String) :
    List (String × String) → Visited → Visited × List VisitEvent
  | [], st => (st, [])
  | (langName, langHeader) :: rest, st =>
    let r := visit_url w st url langName langHeader
    let k := processLangs w url rest r.1
    (k.1, ⟨url, langName, r.2⟩ :: k.2)

/-- `SitemapCrawler.process_url_with_all_languages` (lines 168-173). -/
def process_url_with_all_languages (w : PageWorld) (st : Visited) (url : String) :
    Visited × List VisitEvent :=
  processLangs w url LANGUAGES st

/-- `executor.map(self.process_url_with_all_languages, urls)` (lines
186-187), modelled as processing the urls sequentially in submission
order (concurrency is across urls; each url's languages run on one
worker). -/
def processAll (w : PageWorld) : List String → Visited → Visited × List VisitEvent
  | [], st => (st, [])
  | u :: us, st =>
    let r := process_url_with_all_languages w st u
    let k := processAll w us r.1
    (k.1, r.2 ++ k.2)

/-- The (url, language) pairs for which a network call was actually
performed (the visit was not skipped by the visited-set check). -/
def networkCalls (evs : List VisitEvent) : List (String × String) :=
  evs.filterMap (fun e => e.outcome.map (fun _ => (e.url, e.lang)))

/-- Lines 192-195: the per-language count read from the tracker — the
number of urls in that language's visited set. -/
def languageCount (st : Visited) (lang : String) : Nat :=
  (st.filter (fun p => p.1 = lang)).length

/-- The summary breakdown logged at lines 190-195: one count per
configured language. -/
def summaryOf (st : Visited) : List (String × Nat) :=
  LANGUAGES.map (fun p => (p.1, languageCount st p.1))

/-- Line 196: the grand total, the sum of the per-language counts. -/
def totalOf (st : Visited) : Nat :=
  ((summaryOf st).map (fun p => p.2)).sum

/-- Observable result of `SitemapCrawler.crawl` (lines 175-196):
`noUrls` is the early `return` after logging "No URLs found to crawl"
(the summary block is never reached); `completed` carries the logged
per-language breakdown and grand total. -/
inductive CrawlResult where
  | noUrls
  | completed (summary : List (String × Nat)) (total : Nat)
deriving DecidableEq

/-- `SitemapCrawler.crawl`: resolve the sitemap, return early if the
url list is empty, otherwise process every url with all languages and
aggregate the summary.  `none` = resolver fuel exhausted (model
artifact) or an uncaught exception from resolution. -/
def crawl (wSite : World) (wPage : PageWorld) (root : String) (fuel : Nat) :
    Option CrawlResult :=
  match get_urls_from_sitemap wSite root fuel with
  | some (.result urls _ _ _) =>
    if urls = [] then some .noUrls
    else
      let st := (processAll wPage urls []).1
      some (.completed (summaryOf st) (totalOf st))
  | _ => none

/-- The url list of a normal loop result. -/
def urlsOf (r : Option LoopOut) : Option (List String) :=
  match r with
  | some (.result us _ _ _) => some us
  | _ => none

/-- The world obtained by replacing the response at one location. -/
def updateWorld (w : World) (u : String) (o : FetchOutcome) : World :=
  fun v => if v = u then o else w v

/-! ### Concrete runs used to exercise the theorems -/

/-- A network on which every fetch fails. -/
def wAllErr : World := fun _ => .err

/-- A root sitemap that is a flat url-set with two urls. -/
def wFlat : World := fun u =>
  if u = "r" then .ok false (.plain (.urlset ["a", "b"])) else .err

/-- A two-level index hierarchy: the root index points to a nested
index and a leaf, with one url shared between the two leaves. -/
def wNested : World := fun u =>
  if u = "r" then .ok false (.plain (.index ["i1", "s2"]))
  else if u = "i1" then .ok false (.plain (.index ["s1"]))
  else if u = "s1" then .ok false (.plain (.urlset ["p1", "p2"]))
  else if u = "s2" then .ok false (.plain (.urlset ["p2", "p3"]))
  else .err

/-- An index of two leaves with repeated locations inside and across
the leaf documents. -/
def wDup : World := fun u =>
  if u = "r" then .ok false (.plain (.index ["s1", "s2"]))
  else if u = "s1" then .ok false (.plain (.urlset ["a", "a", "b"]))
  else if u = "s2" then .ok false (.plain (.urlset ["b", "c"]))
  else .err

/-- An index whose middle child fails to fetch while its siblings
resolve normally. -/
def wPartial : World := fun u =>
  if u = "r" then .ok false (.plain (.index ["s1", "bad", "s2"]))
  else if u = "s1" then .ok false (.plain (.urlset ["a"]))
  else if u = "s2" then .ok false (.plain (.urlset ["b"]))
  else .err

/-- A root sitemap served gzip-compressed with a gzip
content-encoding header. -/
def wGzip : World := fun u =>
  if u = "r" then .ok true (.gzipped (.urlset ["a", "b"])) else .err

/-- A page network on which every visit raises. -/
def wpExc : PageWorld := fun _ _ => .exc

/-- A page network on which every visit returns status 404. -/
def wp404 : PageWorld := fun _ _ => .resp 404 none

/-- A page network on which every visit returns status 200 with a page
that has no title element. -/
def wp200 : PageWorld := fun _ _ => .resp 200 none

/-! ### Resolver loop: basic step lemmas -/

theorem resolveLoop_nil (w : World) (acc : List String) (p f s fuel : Nat) :
    resolveLoop w [] acc p f s fuel = some (.result acc.dedup p f s) := by
  cases fuel <;> rfl

theorem resolveLoop_step_fail (w : World) {u : String} (rest acc : List String)
    (p f s fuel : Nat) (h : fetch_url w u = none ∨ fetch_url w u = some .empty) :
    resolveLoop w (u :: rest) acc p f s (fuel + 1) =
      resolveLoop w rest acc (p + 1) (f + 1) s fuel := by
  rcases h with h | h <;> simp [resolveLoop, h]

theorem resolveLoop_step_index (w : World) {u : String} {locs : List String}
    (rest acc : List String) (p f s fuel : Nat)
    (h : fetch_url w u = some (.index locs)) :
    resolveLoop w (u :: rest) acc p f s (fuel + 1) =
      resolveLoop w (rest ++ locs) acc (p + 1) f (s + 1) fuel := by
  simp [resolveLoop, h, parse_sitemap, unpack2]

theorem resolveLoop_step_urlset (w : World) {u : String} {locs : List String}
    (rest acc : List String) (p f s fuel : Nat)
    (h : fetch_url w u = some (.urlset locs)) :
    resolveLoop w (u :: rest) acc p f s (fuel + 1) =
      resolveLoop w rest (acc ++ locs) (p + 1) f (s + 1) fuel := by
  simp [resolveLoop, h, parse_sitemap, unpack2]

theorem resolveLoop_step_malformed (w : World) {u : String}
    (rest acc : List String) (p f s fuel : Nat)
    (h : fetch_url w u = some .malformed) :
    resolveLoop w (u :: rest) acc p f s (fuel + 1) =
      resolveLoop w rest acc (p + 1) f (s + 1) fuel := by
  simp [resolveLoop, h, parse_sitemap, unpack2]

/-- Fuel monotonicity: a run that finishes within `fuel` steps finishes
with the same outcome given more fuel. -/
theorem resolveLoop_mono {w : World} : ∀ {fuel fuel' : Nat}, fuel ≤ fuel' →
    ∀ {q acc : List String} {p f s : Nat} {out : LoopOut},
    resolveLoop w q acc p f s fuel = some out →
    resolveLoop w q acc p f s fuel' = some out := by
  intro fuel
  induction fuel with
  | zero =>
    intro fuel' _ q acc p f s out h
    cases q with
    | nil => rw [resolveLoop_nil] at h; rw [resolveLoop_nil]; exact h
    | cons u rest => simp [resolveLoop] at h
  | succ n ih =>
    intro fuel' hle q acc p f s out h
    cases q with
    | nil => rw [resolveLoop_nil] at h; rw [resolveLoop_nil]; exact h
    | cons u rest =>
      obtain ⟨m, rfl⟩ : ∃ m, fuel' = m + 1 := ⟨fuel' - 1, by omega⟩
      have hm : n ≤ m := by omega
      cases hf : fetch_url w u with
      | none =>
        rw [resolveLoop_step_fail w rest acc p f s n (Or.inl hf)] at h
        rw [resolveLoop_step_fail w rest acc p f s m (Or.inl hf)]
        exact ih hm h
      | some doc =>
        cases doc with
        | empty =>
          rw [resolveLoop_step_fail w rest acc p f s n (Or.inr hf)] at h
          rw [resolveLoop_step_fail w rest acc p f s m (Or.inr hf)]
          exact ih hm h
        | malformed =>
          rw [resolveLoop_step_malformed w rest acc p f s n hf] at h
          rw [resolveLoop_step_malformed w rest acc p f s m hf]
          exact ih hm h
        | index locs =>
          rw [resolveLoop_step_index w rest acc p f s n hf] at h
          rw [resolveLoop_step_index w rest acc p f s m hf]
          exact ih hm h
        | urlset locs =>
          rw [resolveLoop_step_urlset w rest acc p f s n hf] at h
          rw [resolveLoop_step_urlset w rest acc p f s m hf]
          exact ih hm h

/-- The loop never ends in an uncaught exception: the only crash site,
unpacking `parse_sitemap`'s bare-list return, sits behind the
`if not content: continue` guard. -/
theorem resolveLoop_ne_crash {w : World} : ∀ (fuel : Nat) (q acc : List String)
    (p f s : Nat), resolveLoop w q acc p f s fuel ≠ some .crash := by
  intro fuel
  induction fuel with
  | zero =>
    intro q acc p f s
    cases q with
    | nil => rw [resolveLoop_nil]; simp
    | cons u rest => simp [resolveLoop]
  | succ n ih =>
    intro q acc p f s
    cases q with
    | nil => rw [resolveLoop_nil]; simp
    | cons u rest =>
      cases hf : fetch_url w u with
      | none =>
        rw [resolveLoop_step_fail w rest acc p f s n (Or.inl hf)]
        exact ih rest acc (p + 1) (f + 1) s
      | some doc =>
        cases doc with
        | empty =>
          rw [resolveLoop_step_fail w rest acc p f s n (Or.inr hf)]
          exact ih rest acc (p + 1) (f + 1) s
        | malformed =>
          rw [resolveLoop_step_malformed w rest acc p f s n hf]
          exact ih rest acc (p + 1) f (s + 1)
        | index locs =>
          rw [resolveLoop_step_index w rest acc p f s n hf]
          exact ih (rest ++ locs) acc (p + 1) f (s + 1)
        | urlset locs =>
          rw [resolveLoop_step_urlset w rest acc p f s n hf]
          exact ih rest (acc ++ locs) (p + 1) f (s + 1)

/-- Counter accounting: every dequeue iteration either sleeps or was a
failed/empty fetch, so pops split exactly into sleeps plus fails. -/
theorem resolveLoop_counts {w : World} : ∀ (fuel : Nat) (q acc : List String)
    (p f s : Nat) {urls : List String} {p' f' s' : Nat},
    resolveLoop w q acc p f s fuel = some (.result urls p' f' s') →
    p' + s + f = s' + f' + p := by
  intro fuel
  induction fuel with
  | zero =>
    intro q acc p f s urls p' f' s' h
    cases q with
    | nil => rw [resolveLoop_nil] at h; injection h with h; injection h; omega
    | cons u rest => simp [resolveLoop] at h
  | succ n ih =>
    intro q acc p f s urls p' f' s' h
    cases q with
    | nil => rw [resolveLoop_nil] at h; injection h with h; injection h; omega
    | cons u rest =>
      cases hf : fetch_url w u with
      | none =>
        rw [resolveLoop_step_fail w rest acc p f s n (Or.inl hf)] at h
        have := ih rest acc (p + 1) (f + 1) s h; omega
      | some doc =>
        cases doc with
        | empty =>
          rw [resolveLoop_step_fail w rest acc p f s n (Or.inr hf)] at h
          have := ih rest acc (p + 1) (f + 1) s h; omega
        | malformed =>
          rw [resolveLoop_step_malformed w rest acc p f s n hf] at h
          have := ih rest acc (p + 1) f (s + 1) h; omega
        | index locs =>
          rw [resolveLoop_step_index w rest acc p f s n hf] at h
          have := ih (rest ++ locs) acc (p + 1) f (s + 1) h; omega
        | urlset locs =>
          rw [resolveLoop_step_urlset w rest acc p f s n hf] at h
          have := ih rest (acc ++ locs) (p + 1) f (s + 1) h; omega

/-! ### Resolver: termination and completeness on depth-bounded inputs -/

theorem depthBelow_zero (w : World) (u : String) : depthBelow w 0 u = false := rfl

theorem depthBelow_succ_def (w : World) (d : Nat) (u : String) :
    depthBelow w (d + 1) u = (childLocs w u).all (depthBelow w d) := rfl

theorem fuelFor_succ_def (w : World) (d : Nat) (u : String) :
    fuelFor w (d + 1) u = 1 + ((childLocs w u).map (fuelFor w d)).sum := rfl

theorem depthBelow_succ {w : World} {d : Nat} {u : String}
    (h : depthBelow w d u = true) : depthBelow w (d + 1) u = true := by
  induction d generalizing u with
  | zero => rw [depthBelow_zero] at h; cases h
  | succ d ih =>
    rw [depthBelow_succ_def, List.all_eq_true] at h
    rw [depthBelow_succ_def, List.all_eq_true]
    intro c hc
    exact ih (h c hc)

theorem depthBelow_le {w : World} {d e : Nat} {u : String}
    (hle : d ≤ e) (h : depthBelow w d u = true) : depthBelow w e u = true := by
  induction hle with
  | refl => exact h
  | step _ ih => exact depthBelow_succ ih

theorem fuelFor_stab {w : World} : ∀ {d : Nat} {u : String},
    depthBelow w d u = true → ∀ {e : Nat}, d ≤ e → fuelFor w e u = fuelFor w d u := by
  intro d
  induction d with
  | zero => intro u h; rw [depthBelow_zero] at h; cases h
  | succ d ih =>
    intro u h e hle
    obtain ⟨e', rfl⟩ : ∃ e', e = e' + 1 := ⟨e - 1, by omega⟩
    rw [depthBelow_succ_def, List.all_eq_true] at h
    rw [fuelFor_succ_def, fuelFor_succ_def]
    congr 1
    apply congrArg
    exact List.map_congr_left fun c hc => ih (h c hc) (by omega)

theorem fuelFor_pos {w : World} {d : Nat} {u : String}
    (h : depthBelow w d u = true) : 1 ≤ fuelFor w d u := by
  cases d with
  | zero => rw [depthBelow_zero] at h; cases h
  | succ d => rw [fuelFor_succ_def]; omega

theorem childLocs_of_fetch_none {w : World} {u : String}
    (h : fetch_url w u = none) : childLocs w u = [] := by
  simp [childLocs, h]

theorem childLocs_of_fetch_index {w : World} {u : String} {locs : List String}
    (h : fetch_url w u = some (.index locs)) : childLocs w u = locs := by
  simp [childLocs, h]

/-- Given enough fuel — the subtree weight of the queue under any depth
bound — the loop drains the queue and returns normally. -/
theorem resolveLoop_terminates {w : World} (d : Nat) : ∀ N : Nat,
    ∀ q : List String, (∀ u ∈ q, depthBelow w d u = true) →
    (q.map (fuelFor w d)).sum ≤ N → ∀ acc : List String, ∀ p f s : Nat,
    ∃ urls p' f' s', resolveLoop w q acc p f s N = some (.result urls p' f' s') := by
  intro N
  induction N using Nat.strong_induction_on with
  | _ N ih =>
    intro q hq hsum acc p f s
    cases q with
    | nil => exact ⟨acc.dedup, p, f, s, resolveLoop_nil ..⟩
    | cons u rest =>
      have hdu : depthBelow w d u = true := hq u (by simp)
      have h1 : 1 ≤ fuelFor w d u := fuelFor_pos hdu
      have hsum' : fuelFor w d u + (rest.map (fuelFor w d)).sum ≤ N := by
        simpa [List.map_cons, List.sum_cons] using hsum
      obtain ⟨N', rfl⟩ : ∃ N', N = N' + 1 := ⟨N - 1, by omega⟩
      have hN' : N' < N' + 1 := by omega
      have hrest : ∀ u' ∈ rest, depthBelow w d u' = true :=
        fun u' hu' => hq u' (by simp [hu'])
      cases hf : fetch_url w u with
      | none =>
        rw [resolveLoop_step_fail w rest acc p f s N' (Or.inl hf)]
        exact ih N' hN' rest hrest (by omega) acc (p + 1) (f + 1) s
      | some doc =>
        cases doc with
        | empty =>
          rw [resolveLoop_step_fail w rest acc p f s N' (Or.inr hf)]
          exact ih N' hN' rest hrest (by omega) acc (p + 1) (f + 1) s
        | malformed =>
          rw [resolveLoop_step_malformed w rest acc p f s N' hf]
          exact ih N' hN' rest hrest (by omega) acc (p + 1) f (s + 1)
        | urlset locs =>
          rw [resolveLoop_step_urlset w rest acc p f s N' hf]
          exact ih N' hN' rest hrest (by omega) (acc ++ locs) (p + 1) f (s + 1)
        | index locs =>
          rw [resolveLoop_step_index w rest acc p f s N' hf]
          have hcl : childLocs w u = locs := childLocs_of_fetch_index hf
          obtain ⟨d', rfl⟩ : ∃ d', d = d' + 1 := by
            cases d with
            | zero => simp [depthBelow] at hdu
            | succ d' => exact ⟨d', rfl⟩
          rw [depthBelow, hcl, List.all_eq_true] at hdu
          have hlocs : ∀ c ∈ locs, depthBelow w (d' + 1) c = true :=
            fun c hc => depthBelow_succ (hdu c hc)
          have hall : ∀ u' ∈ rest ++ locs, depthBelow w (d' + 1) u' = true := by
            intro u' hu'
            rcases List.mem_append.mp hu' with h' | h'
            · exact hrest u' h'
            · exact hlocs u' h'
          have hwu : fuelFor w (d' + 1) u =
              1 + (locs.map (fuelFor w d')).sum := by
            rw [fuelFor, hcl]
          have hstab : (locs.map (fuelFor w (d' + 1))).sum =
              (locs.map (fuelFor w d')).sum := by
            congr 1
            exact List.map_congr_left fun c hc => fuelFor_stab (hdu c hc) (by omega)
          have hsplit : ((rest ++ locs).map (fuelFor w (d' + 1))).sum =
              (rest.map (fuelFor w (d' + 1))).sum +
              (locs.map (fuelFor w (d' + 1))).sum := by
            rw [List.map_append, List.sum_append]
          have : ((rest ++ locs).map (fuelFor w (d' + 1))).sum ≤ N' := by
            rw [hsplit, hstab]; omega
          exact ih N' hN' (rest ++ locs) hall this acc (p + 1) f (s + 1)

theorem pageLocs_empty_of_not_urlset {w : World} {u : String}
    (h : ∀ locs, fetch_url w u ≠ some (.urlset locs)) : pageLocs w u = [] := by
  unfold pageLocs
  cases hf : fetch_url w u with
  | none => rfl
  | some doc => cases doc with
    | empty => rfl
    | malformed => rfl
    | index locs => rfl
    | urlset locs => exact absurd hf (h locs)

/-- Every url accumulated so far, and every page url of every document
reachable from the queue, ends up in a normal result of the loop. -/
theorem resolveLoop_complete {w : World} : ∀ (fuel : Nat) (q acc : List String)
    (p f s : Nat) {urls : List String} {p' f' s' : Nat},
    resolveLoop w q acc p f s fuel = some (.result urls p' f' s') →
    (∀ a ∈ acc, a ∈ urls) ∧
    (∀ u ∈ q, ∀ v, Reach w u v → ∀ x ∈ pageLocs w v, x ∈ urls) := by
  intro fuel
  induction fuel with
  | zero =>
    intro q acc p f s urls p' f' s' h
    cases q with
    | nil =>
      rw [resolveLoop_nil] at h
      injection h with h
      injection h with h1 _
      subst h1
      refine ⟨fun a ha => List.mem_dedup.mpr ha, ?_⟩
      intro u hu; simp at hu
    | cons u rest => simp [resolveLoop] at h
  | succ n ih =>
    intro q acc p f s urls p' f' s' h
    cases q with
    | nil =>
      rw [resolveLoop_nil] at h
      injection h with h
      injection h with h1 _
      subst h1
      refine ⟨fun a ha => List.mem_dedup.mpr ha, ?_⟩
      intro u hu; simp at hu
    | cons u rest =>
      cases hf : fetch_url w u with
      | none =>
        rw [resolveLoop_step_fail w rest acc p f s n (Or.inl hf)] at h
        obtain ⟨hacc, hrest⟩ := ih rest acc (p + 1) (f + 1) s h
        refine ⟨hacc, ?_⟩
        intro u' hu' v hr x hx
        rcases List.mem_cons.mp hu' with rfl | hu'
        · cases hr with
          | refl =>
            rw [pageLocs_empty_of_not_urlset (fun locs hl => by rw [hf] at hl; cases hl)] at hx
            cases hx
          | step hc _ => rw [childLocs_of_fetch_none hf] at hc; cases hc
        · exact hrest u' hu' v hr x hx
      | some doc =>
        cases doc with
        | empty =>
          rw [resolveLoop_step_fail w rest acc p f s n (Or.inr hf)] at h
          obtain ⟨hacc, hrest⟩ := ih rest acc (p + 1) (f + 1) s h
          refine ⟨hacc, ?_⟩
          intro u' hu' v hr x hx
          rcases List.mem_cons.mp hu' with rfl | hu'
          · cases hr with
            | refl =>
              rw [pageLocs_empty_of_not_urlset (fun locs hl => by rw [hf] at hl; cases hl)] at hx
              cases hx
            | step hc _ =>
              have : childLocs w u' = [] := by simp [childLocs, hf]
              rw [this] at hc; cases hc
          · exact hrest u' hu' v hr x hx
        | malformed =>
          rw [resolveLoop_step_malformed w rest acc p f s n hf] at h
          obtain ⟨hacc, hrest⟩ := ih rest acc (p + 1) f (s + 1) h
          refine ⟨hacc, ?_⟩
          intro u' hu' v hr x hx
          rcases List.mem_cons.mp hu' with rfl | hu'
          · cases hr with
            | refl =>
              rw [pageLocs_empty_of_not_urlset (fun locs hl => by rw [hf] at hl; cases hl)] at hx
              cases hx
            | step hc _ =>
              have : childLocs w u' = [] := by simp [childLocs, hf]
              rw [this] at hc; cases hc
          · exact hrest u' hu' v hr x hx
        | index locs =>
          rw [resolveLoop_step_index w rest acc p f s n hf] at h
          obtain ⟨hacc, hqueue⟩ := ih (rest ++ locs) acc (p + 1) f (s + 1) h
          refine ⟨hacc, ?_⟩
          intro u' hu' v hr x hx
          rcases List.mem_cons.mp hu' with rfl | hu'
          · cases hr with
            | refl =>
              rw [pageLocs_empty_of_not_urlset (fun locs' hl => by rw [hf] at hl; cases hl)] at hx
              cases hx
            | step hc hr' =>
              rw [childLocs_of_fetch_index hf] at hc
              exact hqueue _ (List.mem_append.mpr (Or.inr hc)) v hr' x hx
          · exact hqueue u' (List.mem_append.mpr (Or.inl hu')) v hr x hx
        | urlset locs =>
          rw [resolveLoop_step_urlset w rest acc p f s n hf] at h
          obtain ⟨hacc, hrest⟩ := ih rest (acc ++ locs) (p + 1) f (s + 1) h
          refine ⟨fun a ha => hacc a (List.mem_append.mpr (Or.inl ha)), ?_⟩
          intro u' hu' v hr x hx
          rcases List.mem_cons.mp hu' with rfl | hu'
          · cases hr with
            | refl =>
              have hp : pageLocs w u' = locs := by simp [pageLocs, hf]
              rw [hp] at hx
              exact hacc x (List.mem_append.mpr (Or.inr hx))
            | step hc _ =>
              have : childLocs w u' = [] := by simp [childLocs, hf]
              rw [this] at hc; cases hc
          · exact hrest u' hu' v hr x hx

/-! ### Resolver: failure isolation and fetch congruence -/

theorem fetch_url_update_ne {w : World} {u v : String} (o : FetchOutcome)
    (h : v ≠ u) : fetch_url (updateWorld w u o) v = fetch_url w v := by
  unfold fetch_url updateWorld
  rw [if_neg h]

/-- The returned url list does not depend on the initial counter
values. -/
theorem resolveLoop_counters_urls {w : World} : ∀ (fuel : Nat) (q acc : List String)
    (p f s p₂ f₂ s₂ : Nat),
    urlsOf (resolveLoop w q acc p f s fuel) = urlsOf (resolveLoop w q acc p₂ f₂ s₂ fuel) := by
  intro fuel
  induction fuel with
  | zero =>
    intro q acc p f s p₂ f₂ s₂
    cases q with
    | nil => rw [resolveLoop_nil, resolveLoop_nil]; rfl
    | cons u rest => simp [resolveLoop]
  | succ n ih =>
    intro q acc p f s p₂ f₂ s₂
    cases q with
    | nil => rw [resolveLoop_nil, resolveLoop_nil]; rfl
    | cons u rest =>
      cases hf : fetch_url w u with
      | none =>
        rw [resolveLoop_step_fail w rest acc p f s n (Or.inl hf),
          resolveLoop_step_fail w rest acc p₂ f₂ s₂ n (Or.inl hf)]
        exact ih ..
      | some doc =>
        cases doc with
        | empty =>
          rw [resolveLoop_step_fail w rest acc p f s n (Or.inr hf),
            resolveLoop_step_fail w rest acc p₂ f₂ s₂ n (Or.inr hf)]
          exact ih ..
        | malformed =>
          rw [resolveLoop_step_malformed w rest acc p f s n hf,
            resolveLoop_step_malformed w rest acc p₂ f₂ s₂ n hf]
          exact ih ..
        | index locs =>
          rw [resolveLoop_step_index w rest acc p f s n hf,
            resolveLoop_step_index w rest acc p₂ f₂ s₂ n hf]
          exact ih ..
        | urlset locs =>
          rw [resolveLoop_step_urlset w rest acc p f s n hf,
            resolveLoop_step_urlset w rest acc p₂ f₂ s₂ n hf]
          exact ih ..

/-- The loop is determined by what `fetch_url` returns at each
location: two worlds whose fetches agree resolve identically. -/
theorem resolveLoop_fetch_congr {w w' : World}
    (hfw : ∀ v, fetch_url w v = fetch_url w' v) : ∀ (fuel : Nat) (q acc : List String)
    (p f s : Nat), resolveLoop w q acc p f s fuel = resolveLoop w' q acc p f s fuel := by
  intro fuel
  induction fuel with
  | zero =>
    intro q acc p f s
    cases q with
    | nil => rw [resolveLoop_nil, resolveLoop_nil]
    | cons u rest => simp [resolveLoop]
  | succ n ih =>
    intro q acc p f s
    cases q with
    | nil => rw [resolveLoop_nil, resolveLoop_nil]
    | cons u rest =>
      have hfu : fetch_url w' u = fetch_url w u := (hfw u).symm
      cases hf : fetch_url w u with
      | none =>
        rw [resolveLoop_step_fail w rest acc p f s n (Or.inl hf),
          resolveLoop_step_fail w' rest acc p f s n (Or.inl (hfu.trans hf))]
        exact ih ..
      | some doc =>
        cases doc with
        | empty =>
          rw [resolveLoop_step_fail w rest acc p f s n (Or.inr hf),
            resolveLoop_step_fail w' rest acc p f s n (Or.inr (hfu.trans hf))]
          exact ih ..
        | malformed =>
          rw [resolveLoop_step_malformed w rest acc p f s n hf,
            resolveLoop_step_malformed w' rest acc p f s n (hfu.trans hf)]
          exact ih ..
        | index locs =>
          rw [resolveLoop_step_index w rest acc p f s n hf,
            resolveLoop_step_index w' rest acc p f s n (hfu.trans hf)]
          exact ih ..
        | urlset locs =>
          rw [resolveLoop_step_urlset w rest acc p f s n hf,
            resolveLoop_step_urlset w' rest acc p f s n (hfu.trans hf)]
          exact ih ..

/-- A location whose fetch or parse fails contributes exactly nothing:
replacing it by an empty url-set document leaves the resolved url list
unchanged (only the politeness-sleep count can differ). -/
theorem resolveLoop_failure_isolated {w : World} {u : String}
    (h : fetch_url w u = none ∨ fetch_url w u = some .empty ∨
      fetch_url w u = some .malformed) : ∀ (fuel : Nat) (q acc : List String)
    (p f s : Nat),
    urlsOf (resolveLoop w q acc p f s fuel) =
      urlsOf (resolveLoop (updateWorld w u (.ok false (.plain (.urlset [])))) q acc p f s fuel) := by
  intro fuel
  induction fuel with
  | zero =>
    intro q acc p f s
    cases q with
    | nil => rw [resolveLoop_nil, resolveLoop_nil]
    | cons v rest => simp [resolveLoop]
  | succ n ih =>
    intro q acc p f s
    set w' := updateWorld w u (.ok false (.plain (.urlset []))) with hw'
    cases q with
    | nil => rw [resolveLoop_nil, resolveLoop_nil]
    | cons v rest =>
      by_cases hvu : v = u
      · subst hvu
        have hfu' : fetch_url w' v = none ∨ fetch_url w' v = some (.urlset []) := by
          rw [hw']
          unfold fetch_url updateWorld
          rw [if_pos rfl]
          cases hgz : ends_with_gz v with
          | true => exact Or.inl (by simp [hgz])
          | false => exact Or.inr (by simp [hgz])
        have step_right : ∃ p₂ f₂ s₂, resolveLoop w' (v :: rest) acc p f s (n + 1) =
            resolveLoop w' rest acc p₂ f₂ s₂ n := by
          rcases hfu' with hfu' | hfu'
          · exact ⟨p + 1, f + 1, s, resolveLoop_step_fail w' rest acc p f s n (Or.inl hfu')⟩
          · refine ⟨p + 1, f, s + 1, ?_⟩
            rw [resolveLoop_step_urlset w' rest acc p f s n hfu']
            rw [List.append_nil]
        obtain ⟨p₂, f₂, s₂, hstep⟩ := step_right
        rw [hstep]
        have step_left : ∃ p₁ f₁ s₁, resolveLoop w (v :: rest) acc p f s (n + 1) =
            resolveLoop w rest acc p₁ f₁ s₁ n := by
          rcases h with h | h | h
          · exact ⟨p + 1, f + 1, s, resolveLoop_step_fail w rest acc p f s n (Or.inl h)⟩
          · exact ⟨p + 1, f + 1, s, resolveLoop_step_fail w rest acc p f s n (Or.inr h)⟩
          · exact ⟨p + 1, f, s + 1, resolveLoop_step_malformed w rest acc p f s n h⟩
        obtain ⟨p₁, f₁, s₁, hstepL⟩ := step_left
        rw [hstepL]
        calc urlsOf (resolveLoop w rest acc p₁ f₁ s₁ n)
            = urlsOf (resolveLoop w' rest acc p₁ f₁ s₁ n) := ih ..
          _ = urlsOf (resolveLoop w' rest acc p₂ f₂ s₂ n) := resolveLoop_counters_urls ..
      · have hfv : fetch_url w' v = fetch_url w v := fetch_url_update_ne _ hvu
        cases hf : fetch_url w v with
        | none =>
          rw [resolveLoop_step_fail w rest acc p f s n (Or.inl hf),
            resolveLoop_step_fail w' rest acc p f s n (Or.inl (hfv.trans hf))]
          exact ih ..
        | some doc =>
          cases doc with
          | empty =>
            rw [resolveLoop_step_fail w rest acc p f s n (Or.inr hf),
              resolveLoop_step_fail w' rest acc p f s n (Or.inr (hfv.trans hf))]
            exact ih ..
          | malformed =>
            rw [resolveLoop_step_malformed w rest acc p f s n hf,
              resolveLoop_step_malformed w' rest acc p f s n (hfv.trans hf)]
            exact ih ..
          | index locs =>
            rw [resolveLoop_step_index w rest acc p f s n hf,
              resolveLoop_step_index w' rest acc p f s n (hfv.trans hf)]
            exact ih ..
          | urlset locs =>
            rw [resolveLoop_step_urlset w rest acc p f s n hf,
              resolveLoop_step_urlset w' rest acc p f s n (hfv.trans hf)]
            exact ih ..

/-! ### Visitor and scheduler lemmas -/

theorem visit_url_mem {st : Visited} {url langName : String} (w : PageWorld)
    (langHeader : String) (h : (langName, url) ∈ st) :
    visit_url w st url langName langHeader = (st, none) := by
  simp [visit_url, h]

theorem visit_url_not_mem {st : Visited} {url langName : String} (w : PageWorld)
    (langHeader : String) (h : (langName, url) ∉ st) :
    (visit_url w st url langName langHeader).1 = (langName, url) :: st ∧
    ((visit_url w st url langName langHeader).2).isSome = true := by
  unfold visit_url
  rw [if_neg h]
  cases hw : w url langHeader with
  | exc => exact ⟨rfl, rfl⟩
  | resp status titleElem =>
    by_cases h200 : status = 200
    · simp [h200]
    · simp [h200]

/-- The visited-set update performed by `visit_url` does not depend on
the network response in any way. -/
theorem visit_url_state_world (w w' : PageWorld) (st : Visited)
    (url langName langHeader : String) :
    (visit_url w st url langName langHeader).1 =
      (visit_url w' st url langName langHeader).1 := by
  by_cases h : (langName, url) ∈ st
  · rw [visit_url_mem w langHeader h, visit_url_mem w' langHeader h]
  · exact (visit_url_not_mem w langHeader h).1.trans
      (visit_url_not_mem w' langHeader h).1.symm

/-- `visit_url` never removes a pair from the visited structure. -/
theorem visit_url_sublist (w : PageWorld) (st : Visited)
    (url langName langHeader : String) :
    st.Sublist (visit_url w st url langName langHeader).1 := by
  by_cases h : (langName, url) ∈ st
  · rw [visit_url_mem w langHeader h]
  · rw [(visit_url_not_mem w langHeader h).1]
    exact List.Sublist.cons _ (List.Sublist.refl st)

theorem processLangs_length (w : PageWorld) (url : String) :
    ∀ (langs : List (String × String)) (st : Visited),
    ((processLangs w url langs st).2).length = langs.length := by
  intro langs
  induction langs with
  | nil => intro st; rfl
  | cons p rest ih =>
    intro st
    obtain ⟨langName, langHeader⟩ := p
    simp [processLangs, ih]

theorem processLangs_sublist (w : PageWorld) (url : String) :
    ∀ (langs : List (String × String)) (st : Visited),
    st.Sublist (processLangs w url langs st).1 := by
  intro langs
  induction langs with
  | nil => intro st; exact List.Sublist.refl st
  | cons p rest ih =>
    intro st
    obtain ⟨langName, langHeader⟩ := p
    exact (visit_url_sublist w st url langName langHeader).trans (ih _)

theorem processLangs_state_world (w w' : PageWorld) (url : String) :
    ∀ (langs : List (String × String)) (st : Visited),
    (processLangs w url langs st).1 = (processLangs w' url langs st).1 := by
  intro langs
  induction langs with
  | nil => intro st; rfl
  | cons p rest ih =>
    intro st
    obtain ⟨langName, langHeader⟩ := p
    show (processLangs w url rest (visit_url w st url langName langHeader).1).1 =
      (processLangs w' url rest (visit_url w' st url langName langHeader).1).1
    rw [visit_url_state_world w w' st url langName langHeader]
    exact ih _

/-- When no language has visited `url` yet, the language loop adds one
pair per configured language to the visited structure. -/
theorem processLangs_state_fresh (w : PageWorld) (url : String) :
    ∀ (langs : List (String × String)) (st : Visited),
    (∀ p ∈ langs, (p.1, url) ∉ st) → (langs.map Prod.fst).Nodup →
    (processLangs w url langs st).1 =
      (langs.reverse.map (fun p => (p.1, url))) ++ st := by
  intro langs
  induction langs with
  | nil => intro st _ _; rfl
  | cons p rest ih =>
    intro st hfresh hnodup
    obtain ⟨langName, langHeader⟩ := p
    have hmem : (langName, url) ∉ st := hfresh (langName, langHeader) (List.mem_cons_self _ _)
    rw [List.map_cons, List.nodup_cons] at hnodup
    show (processLangs w url rest (visit_url w st url langName langHeader).1).1 = _
    rw [(visit_url_not_mem w langHeader hmem).1]
    have hfresh' : ∀ q ∈ rest, (q.1, url) ∉ ((langName, url) :: st) := by
      intro q hq hmem'
      rcases List.mem_cons.mp hmem' with heq | hmem'
      · have hq1 : q.1 = langName := congrArg Prod.fst heq
        have hqm : q.1 ∈ List.map Prod.fst rest := List.mem_map_of_mem Prod.fst hq
        rw [hq1] at hqm
        exact hnodup.1 hqm
      · exact hfresh q (by simp [hq]) hmem'
    rw [ih _ hfresh' hnodup.2]
    simp [List.map_append]

/-- When no language has visited `url` yet, every language's visit
performs a network call, in configuration order. -/
theorem processLangs_calls_fresh (w : PageWorld) (url : String) :
    ∀ (langs : List (String × String)) (st : Visited),
    (∀ p ∈ langs, (p.1, url) ∉ st) → (langs.map Prod.fst).Nodup →
    networkCalls (processLangs w url langs st).2 =
      langs.map (fun p => (url, p.1)) := by
  intro langs
  induction langs with
  | nil => intro st _ _; rfl
  | cons p rest ih =>
    intro st hfresh hnodup
    obtain ⟨langName, langHeader⟩ := p
    have hmem : (langName, url) ∉ st := hfresh (langName, langHeader) (List.mem_cons_self _ _)
    rw [List.map_cons, List.nodup_cons] at hnodup
    obtain ⟨hst, hsome⟩ := visit_url_not_mem w langHeader hmem
    have hfresh' : ∀ q ∈ rest, (q.1, url) ∉ (visit_url w st url langName langHeader).1 := by
      rw [hst]
      intro q hq hmem'
      rcases List.mem_cons.mp hmem' with heq | hmem'
      · have hq1 : q.1 = langName := congrArg Prod.fst heq
        have hqm : q.1 ∈ List.map Prod.fst rest := List.mem_map_of_mem Prod.fst hq
        rw [hq1] at hqm
        exact hnodup.1 hqm
      · exact hfresh q (by simp [hq]) hmem'
    have hnodup' : (rest.map Prod.fst).Nodup := hnodup.2
    obtain ⟨o, ho⟩ := Option.isSome_iff_exists.mp hsome
    show networkCalls (⟨url, langName, (visit_url w st url langName langHeader).2⟩ ::
      (processLangs w url rest (visit_url w st url langName langHeader).1).2) = _
    rw [networkCalls, List.filterMap_cons]
    simp only [ho, Option.map_some]
    rw [show List.filterMap (fun e => e.outcome.map (fun _ => (e.url, e.lang)))
        (processLangs w url rest (visit_url w st url langName langHeader).1).2 =
      networkCalls (processLangs w url rest (visit_url w st url langName langHeader).1).2 from rfl]
    rw [ih _ hfresh' hnodup']
    simp

theorem LANGUAGES_names_nodup : (LANGUAGES.map Prod.fst).Nodup := by decide

theorem processAll_length (w : PageWorld) : ∀ (us : List String) (st : Visited),
    ((processAll w us st).2).length = us.length * LANGUAGES.length := by
  intro us
  induction us with
  | nil => intro st; rfl
  | cons u rest ih =>
    intro st
    show ((process_url_with_all_languages w st u).2 ++
      (processAll w rest (process_url_with_all_languages w st u).1).2).length = _
    rw [List.length_append, ih]
    rw [show ((process_url_with_all_languages w st u).2).length = LANGUAGES.length from
      processLangs_length w u LANGUAGES st]
    rw [List.length_cons]
    ring

theorem processAll_sublist (w : PageWorld) : ∀ (us : List String) (st : Visited),
    st.Sublist (processAll w us st).1 := by
  intro us
  induction us with
  | nil => intro st; exact List.Sublist.refl st
  | cons u rest ih =>
    intro st
    exact (processLangs_sublist w u LANGUAGES st).trans (ih _)

theorem processAll_state_world (w w' : PageWorld) : ∀ (us : List String) (st : Visited),
    (processAll w us st).1 = (processAll w' us st).1 := by
  intro us
  induction us with
  | nil => intro st; rfl
  | cons u rest ih =>
    intro st
    show (processAll w rest (process_url_with_all_languages w st u).1).1 =
      (processAll w' rest (process_url_with_all_languages w' st u).1).1
    rw [show (process_url_with_all_languages w st u).1 =
      (process_url_with_all_languages w' st u).1 from
      processLangs_state_world w w' u LANGUAGES st]
    exact ih _

/-- Scheduling a deduplicated url list from a fresh tracker: every url
is visited under every configured language, exactly once per pair. -/
theorem processAll_calls_fresh (w : PageWorld) : ∀ (us : List String) (st : Visited),
    us.Nodup → (∀ u ∈ us, ∀ l, (l, u) ∉ st) →
    networkCalls (processAll w us st).2 =
      us.flatMap (fun u => LANGUAGES.map (fun p => (u, p.1))) := by
  intro us
  induction us with
  | nil => intro st _ _; rfl
  | cons u rest ih =>
    intro st hnodup hfresh
    have hfu : ∀ p ∈ LANGUAGES, (p.1, u) ∉ st := fun p _ => hfresh u (by simp) p.1
    show networkCalls ((process_url_with_all_languages w st u).2 ++
      (processAll w rest (process_url_with_all_languages w st u).1).2) = _
    rw [networkCalls, List.filterMap_append]
    rw [show List.filterMap (fun e => e.outcome.map (fun _ => (e.url, e.lang)))
        (process_url_with_all_languages w st u).2 =
      networkCalls (process_url_with_all_languages w st u).2 from rfl]
    rw [show List.filterMap (fun e => e.outcome.map (fun _ => (e.url, e.lang)))
        (processAll w rest (process_url_with_all_languages w st u).1).2 =
      networkCalls (processAll w rest (process_url_with_all_languages w st u).1).2 from rfl]
    rw [show (process_url_with_all_languages w st u).2 =
      (processLangs w u LANGUAGES st).2 from rfl]
    rw [processLangs_calls_fresh w u LANGUAGES st hfu LANGUAGES_names_nodup]
    have hstate : (process_url_with_all_languages w st u).1 =
        (LANGUAGES.reverse.map (fun p => (p.1, u))) ++ st :=
      processLangs_state_fresh w u LANGUAGES st hfu LANGUAGES_names_nodup
    have hfresh' : ∀ u' ∈ rest, ∀ l, (l, u') ∉ (process_url_with_all_languages w st u).1 := by
      intro u' hu' l hmem
      rw [hstate] at hmem
      rcases List.mem_append.mp hmem with hmem | hmem
      · obtain ⟨p, _, hp⟩ := List.mem_map.mp hmem
        have : u' = u := congrArg Prod.snd hp.symm
        exact (List.nodup_cons.mp hnodup).1 (this ▸ hu')
      · exact hfresh u' (by simp [hu']) l hmem
    rw [ih _ (List.nodup_cons.mp hnodup).2 hfresh']
    rw [List.flatMap_cons]

/-- Every normal result of the loop is the deduplication of the
accumulator, hence duplicate-free. -/
theorem resolveLoop_result_nodup {w : World} : ∀ (fuel : Nat) (q acc : List String)
    (p f s : Nat) {urls : List String} {p' f' s' : Nat},
    resolveLoop w q acc p f s fuel = some (.result urls p' f' s') → urls.Nodup := by
  intro fuel
  induction fuel with
  | zero =>
    intro q acc p f s urls p' f' s' h
    cases q with
    | nil =>
      rw [resolveLoop_nil] at h
      injection h with h
      injection h with h1 _
      exact h1 ▸ List.nodup_dedup acc
    | cons u rest => simp [resolveLoop] at h
  | succ n ih =>
    intro q acc p f s urls p' f' s' h
    cases q with
    | nil =>
      rw [resolveLoop_nil] at h
      injection h with h
      injection h with h1 _
      exact h1 ▸ List.nodup_dedup acc
    | cons u rest =>
      cases hf : fetch_url w u with
      | none =>
        rw [resolveLoop_step_fail w rest acc p f s n (Or.inl hf)] at h
        exact ih rest acc (p + 1) (f + 1) s h
      | some doc =>
        cases doc with
        | empty =>
          rw [resolveLoop_step_fail w rest acc p f s n (Or.inr hf)] at h
          exact ih rest acc (p + 1) (f + 1) s h
        | malformed =>
          rw [resolveLoop_step_malformed w rest acc p f s n hf] at h
          exact ih rest acc (p + 1) f (s + 1) h
        | index locs =>
          rw [resolveLoop_step_index w rest acc p f s n hf] at h
          exact ih (rest ++ locs) acc (p + 1) f (s + 1) h
        | urlset locs =>
          rw [resolveLoop_step_urlset w rest acc p f s n hf] at h
          exact ih rest (acc ++ locs) (p + 1) f (s + 1) h

/-! ### The claims -/

/-- C1: for every crawl run and fixed language, the set of urls on
which the Visitor performs its network call under that language is
exactly the set of distinct page urls returned by the Resolver, and no
(url, language) pair is called more than once: the performed calls,
over any page network, are pairwise distinct, and a pair (u, l) with a
configured language l is called iff u is in the Resolver's list. -/
theorem claim_c1_visits_exactly_resolved (wSite : World) (wPage : PageWorld)
    (root : String) (fuel : Nat) (urls : List String) (p f s : Nat)
    (h : get_urls_from_sitemap wSite root fuel = some (.result urls p f s)) :
    (networkCalls (processAll wPage urls []).2).Nodup ∧
    (∀ l ∈ LANGUAGES.map Prod.fst, ∀ u : String,
      (u, l) ∈ networkCalls (processAll wPage urls []).2 ↔ u ∈ urls) := by
  have hnd : urls.Nodup := resolveLoop_result_nodup fuel [root] [] 0 0 0 h
  have hfresh : ∀ u ∈ urls, ∀ l, (l, u) ∉ ([] : Visited) := by
    intro u _ l hmem
    cases hmem
  rw [processAll_calls_fresh wPage urls [] hnd hfresh]
  constructor
  · rw [List.nodup_flatMap]
    constructor
    · intro u _
      have hmm : LANGUAGES.map (fun q => (u, q.1)) =
          (LANGUAGES.map Prod.fst).map (fun n => (u, n)) := by
        rw [List.map_map]
        rfl
      rw [hmm]
      exact LANGUAGES_names_nodup.map (fun a b hab => congrArg Prod.snd hab)
    · refine hnd.imp ?_
      intro a b hab x hxa hxb
      obtain ⟨pa, _, hpa⟩ := List.mem_map.mp hxa
      obtain ⟨pb, _, hpb⟩ := List.mem_map.mp hxb
      exact hab ((congrArg Prod.fst hpa).trans (congrArg Prod.fst hpb).symm)
  · intro l hl u
    constructor
    · intro hm
      obtain ⟨u', hu', hmm⟩ := List.mem_flatMap.mp hm
      obtain ⟨pp, _, hpp⟩ := List.mem_map.mp hmm
      have hu'u : u' = u := congrArg Prod.fst hpp
      exact hu'u ▸ hu'
    · intro hu
      obtain ⟨pp, hppmem, hpp1⟩ := List.mem_map.mp hl
      exact List.mem_flatMap.mpr ⟨u, hu, List.mem_map.mpr ⟨pp, hppmem, by rw [hpp1]⟩⟩

/-- C1 exercised on a flat two-url sitemap with an all-failing page
network. -/
theorem claim_c1_witness :
    (networkCalls (processAll wpExc ["a", "b"] []).2).Nodup ∧
    (∀ l ∈ LANGUAGES.map Prod.fst, ∀ u : String,
      (u, l) ∈ networkCalls (processAll wpExc ["a", "b"] []).2 ↔ u ∈ ["a", "b"]) :=
  claim_c1_visits_exactly_resolved wFlat wpExc "r" 1 ["a", "b"] 1 0 1 (by decide)

/-- C2: for every input sitemap hierarchy, the url list returned by the
Resolver contains no duplicate strings (urls compared as opaque
strings). -/
theorem claim_c2_resolver_nodup (w : World) (root : String) (fuel : Nat)
    (urls : List String) (p f s : Nat)
    (h : get_urls_from_sitemap w root fuel = some (.result urls p f s)) :
    urls.Nodup :=
  resolveLoop_result_nodup fuel [root] [] 0 0 0 h

/-- C2 exercised on an input with repeated loc entries both inside one
document and across two documents. -/
theorem claim_c2_witness : (["a", "b", "c"] : List String).Nodup :=
  claim_c2_resolver_nodup wDup "r" 3 ["a", "b", "c"] 3 0 3 (by decide)

/-- C3: for every depth-bounded (hence acyclic along reachable links)
sitemap hierarchy, the Resolver terminates — some fuel makes the FIFO
loop drain the queue and return normally — and the result contains
every page url of every url-set document reachable from the root. -/
theorem claim_c3_terminates_complete (w : World) (root : String) (d : Nat)
    (h : depthBelow w d root = true) :
    ∃ fuel urls p f s, get_urls_from_sitemap w root fuel = some (.result urls p f s) ∧
      ∀ v, Reach w root v → ∀ x ∈ pageLocs w v, x ∈ urls := by
  obtain ⟨urls, p', f', s', hrun⟩ := resolveLoop_terminates d (fuelFor w d root) [root]
    (by
      intro u hu
      rw [List.mem_singleton] at hu
      exact hu ▸ h)
    (by simp) [] 0 0 0
  refine ⟨fuelFor w d root, urls, p', f', s', hrun, ?_⟩
  exact (resolveLoop_complete _ _ _ _ _ _ hrun).2 root (List.mem_singleton_self root)

/-- C3 exercised on a two-level nested index hierarchy. -/
theorem claim_c3_witness : depthBelow wNested 3 "r" = true ∧
    (∃ fuel urls p f s, get_urls_from_sitemap wNested "r" fuel = some (.result urls p f s) ∧
      ∀ v, Reach wNested "r" v → ∀ x ∈ pageLocs wNested v, x ∈ urls) :=
  ⟨by decide, claim_c3_terminates_complete wNested "r" 3 (by decide)⟩

/-- C4: the Resolver fails soft — a location whose fetch fails, whose
body is empty, or whose body is malformed XML contributes nothing
(resolution returns the same url list as if that location served an
empty url-set), and no exception ever propagates out of resolution. -/
theorem claim_c4_fails_soft (w : World) (u : String)
    (h : fetch_url w u = none ∨ fetch_url w u = some .empty ∨
      fetch_url w u = some .malformed) :
    (∀ root fuel, urlsOf (get_urls_from_sitemap w root fuel) =
      urlsOf (get_urls_from_sitemap
        (updateWorld w u (.ok false (.plain (.urlset [])))) root fuel)) ∧
    (∀ root fuel, get_urls_from_sitemap w root fuel ≠ some .crash) := by
  constructor
  · intro root fuel
    exact resolveLoop_failure_isolated h fuel [root] [] 0 0 0
  · intro root fuel
    exact resolveLoop_ne_crash fuel [root] [] 0 0 0

/-- C4 exercised on an index whose middle child fails to fetch. -/
theorem claim_c4_witness :
    (∀ root fuel, urlsOf (get_urls_from_sitemap wPartial root fuel) =
      urlsOf (get_urls_from_sitemap
        (updateWorld wPartial "bad" (.ok false (.plain (.urlset [])))) root fuel)) ∧
    (∀ root fuel, get_urls_from_sitemap wPartial root fuel ≠ some .crash) :=
  claim_c4_fails_soft wPartial "bad" (Or.inl (by decide))

theorem languageCount_cons_self (st : Visited) (l u : String) :
    languageCount ((l, u) :: st) l = languageCount st l + 1 := by
  simp [languageCount, List.filter_cons]

theorem crawl_eq_of_result {wSite : World} (wPage : PageWorld) {root : String}
    {fuel : Nat} {urls : List String} {p f s : Nat}
    (h : get_urls_from_sitemap wSite root fuel = some (.result urls p f s)) :
    crawl wSite wPage root fuel =
      if urls = [] then some .noUrls
      else some (.completed (summaryOf (processAll wPage urls []).1)
        (totalOf (processAll wPage urls []).1)) := by
  unfold crawl
  rw [h]

/-- C5: every page visit is classified exactly as — exception during
the call yields a transport error (logged at error level), status 200
yields a success carrying the best-effort extracted title where a page
with no title element gets the "No title" sentinel, any other status
yields an HTTP failure with that status (logged at warning level) — and
no outcome aborts scheduling: the scheduler emits one visit event per
(url, language) work item over any page network. -/
theorem claim_c5_outcome_classification :
    (∀ (w : PageWorld) (st : Visited) (url langName langHeader : String),
      (langName, url) ∉ st →
      ((w url langHeader = .exc →
        (visit_url w st url langName langHeader).2 = some .transportError) ∧
       (∀ titleElem, w url langHeader = .resp 200 titleElem →
        (visit_url w st url langName langHeader).2 =
          some (.success (extract_title titleElem))) ∧
       (∀ status titleElem, w url langHeader = .resp status titleElem → status ≠ 200 →
        (visit_url w st url langName langHeader).2 = some (.httpFailure status)))) ∧
    extract_title none = some "No title" ∧
    (∀ status, logLevelOf (.httpFailure status) = .warning) ∧
    logLevelOf .transportError = .error ∧
    (∀ (w : PageWorld) (us : List String) (st : Visited),
      ((processAll w us st).2).length = us.length * LANGUAGES.length) := by
  refine ⟨?_, rfl, fun status => rfl, rfl, processAll_length⟩
  intro w st url langName langHeader hmem
  refine ⟨?_, ?_, ?_⟩
  · intro hw
    unfold visit_url
    rw [if_neg hmem, hw]
  · intro titleElem hw
    unfold visit_url
    rw [if_neg hmem, hw]
    simp
  · intro status titleElem hw hne
    unfold visit_url
    rw [if_neg hmem, hw]
    simp [hne]

/-- C5 exercised with a raising network, a 200 response with no title
element, and a 404 response. -/
theorem claim_c5_witness :
    (visit_url wpExc [] "u" "French" "fr,fr-FR;q=0.9").2 = some .transportError ∧
    (visit_url wp200 [] "u" "French" "fr,fr-FR;q=0.9").2 =
      some (.success (some "No title")) ∧
    (visit_url wp404 [] "u" "French" "fr,fr-FR;q=0.9").2 = some (.httpFailure 404) := by
  refine ⟨?_, ?_, ?_⟩
  · exact (claim_c5_outcome_classification.1 wpExc [] "u" "French" "fr,fr-FR;q=0.9"
      (List.not_mem_nil _)).1 rfl
  · have h := (claim_c5_outcome_classification.1 wp200 [] "u" "French" "fr,fr-FR;q=0.9"
      (List.not_mem_nil _)).2.1 none rfl
    rw [h]
    rfl
  · exact (claim_c5_outcome_classification.1 wp404 [] "u" "French" "fr,fr-FR;q=0.9"
      (List.not_mem_nil _)).2.2 404 none rfl (by decide)

/-- C6 counterexample: on a network where the root fetch fails, the
Resolver returns an empty url set and `crawl` takes the early `return`
(`noUrls`) — it does not print the summary block, so the run does not
end "with an empty summary" and not every run prints the final
per-language summary. -/
theorem claim_c6_counterexample :
    crawl wAllErr wpExc "r" 1 = some CrawlResult.noUrls ∧
    some CrawlResult.noUrls ≠
      some (CrawlResult.completed (summaryOf []) (totalOf [])) := by
  constructor
  · decide
  · decide

/-- C6 amended: when the Resolver returns an empty url set the crawl
logs an error and returns normally without reaching the summary block;
when the set is nonempty the run completes and produces the final
per-language summary with the grand total, for every page network —
regardless of how many individual visits failed. -/
theorem claim_c6_amended (wSite : World) (wPage : PageWorld) (root : String)
    (fuel : Nat) (urls : List String) (p f s : Nat)
    (h : get_urls_from_sitemap wSite root fuel = some (.result urls p f s)) :
    (urls = [] → crawl wSite wPage root fuel = some .noUrls) ∧
    (urls ≠ [] → crawl wSite wPage root fuel =
      some (.completed (summaryOf (processAll wPage urls []).1)
        (totalOf (processAll wPage urls []).1))) := by
  have hc := crawl_eq_of_result wPage h
  constructor
  · intro hurls
    rw [hc, if_pos hurls]
  · intro hurls
    rw [hc, if_neg hurls]

/-- C6 amended, exercised on a two-url sitemap where every visit
raises: the run still completes with a summary. -/
theorem claim_c6_witness :
    crawl wFlat wpExc "r" 1 =
      some (.completed (summaryOf (processAll wpExc ["a", "b"] []).1)
        (totalOf (processAll wpExc ["a", "b"] []).1)) :=
  (claim_c6_amended wFlat wpExc "r" 1 ["a", "b"] 1 0 1 (by decide)).2 (by decide)

/-- C7 counterexample: a run of the Resolver on a root whose fetch
fails performs one dequeue iteration but zero politeness sleeps — the
`continue` after a failed fetch skips the sleep, so the sleep is not
performed in every dequeue iteration. -/
theorem claim_c7_counterexample :
    get_urls_from_sitemap wAllErr "r" 1 = some (.result [] 1 1 0) ∧ (0 : Nat) < 1 := by
  constructor
  · decide
  · decide

/-- C7 amended: a politeness sleep of the configured delay is performed
in exactly those dequeue iterations whose fetch yields non-empty
content — regardless of whether that content is an index or a leaf
url-set — so sleeps plus failed-fetch iterations equal total dequeue
iterations. -/
theorem claim_c7_amended (w : World) (root : String) (fuel : Nat)
    (urls : List String) (p f s : Nat)
    (h : get_urls_from_sitemap w root fuel = some (.result urls p f s)) :
    s + f = p := by
  have hcount := resolveLoop_counts fuel [root] [] 0 0 0 h
  omega

/-- C7 amended, exercised on a run mixing one index iteration and two
leaf iterations: three pops, three sleeps, zero failures. -/
theorem claim_c7_witness :
    get_urls_from_sitemap wDup "r" 3 = some (.result ["a", "b", "c"] 3 0 3) ∧
    (3 : Nat) + 0 = 3 :=
  ⟨by decide, claim_c7_amended wDup "r" 3 ["a", "b", "c"] 3 0 3 (by decide)⟩

/-- C8: a body flagged as gzip — by the content-encoding header or by a
location ending in `.gz` — is gunzipped before parsing, yielding the
same document as a plain fetch of the uncompressed body would; the
Resolver's output depends only on the fetched documents, so a
gzip-compressed sitemap resolves to exactly the same url list as its
uncompressed equivalent. -/
theorem claim_c8_gzip_transparent :
    (∀ (w : World) (u : String) (enc : Bool) (d : XmlDoc),
      (enc || ends_with_gz u) = true → w u = .ok enc (.gzipped d) →
      fetch_url w u = some d) ∧
    (∀ (w : World) (u : String) (d : XmlDoc), ends_with_gz u = false →
      w u = .ok false (.plain d) → fetch_url w u = some d) ∧
    (∀ (w w' : World), (∀ v, fetch_url w v = fetch_url w' v) →
      ∀ root fuel, get_urls_from_sitemap w root fuel =
        get_urls_from_sitemap w' root fuel) ∧
    (∀ (w : World) (u : String) (d : XmlDoc), ends_with_gz u = false →
      w u = .ok true (.gzipped d) →
      ∀ root fuel, get_urls_from_sitemap w root fuel =
        get_urls_from_sitemap (updateWorld w u (.ok false (.plain d))) root fuel) := by
  have h1 : ∀ (w : World) (u : String) (enc : Bool) (d : XmlDoc),
      (enc || ends_with_gz u) = true → w u = .ok enc (.gzipped d) →
      fetch_url w u = some d := by
    intro w u enc d hflag hw
    simp [fetch_url, hw, hflag]
  have h3 : ∀ (w w' : World), (∀ v, fetch_url w v = fetch_url w' v) →
      ∀ root fuel, get_urls_from_sitemap w root fuel =
        get_urls_from_sitemap w' root fuel := by
    intro w w' hfw root fuel
    exact resolveLoop_fetch_congr hfw fuel [root] [] 0 0 0
  refine ⟨h1, ?_, h3, ?_⟩
  · intro w u d hgz hw
    simp [fetch_url, hw, hgz]
  · intro w u d hgz hw root fuel
    apply h3
    intro v
    by_cases hv : v = u
    · subst hv
      have hr : fetch_url (updateWorld w v (.ok false (.plain d))) v = some d := by
        unfold fetch_url updateWorld
        rw [if_pos rfl]
        simp [hgz]
      rw [h1 w v true d (by simp) hw, hr]
    · rw [fetch_url_update_ne _ hv]

/-- C8 exercised on a root served gzip-compressed with a gzip
content-encoding: the fetch gunzips it and resolution equals that of
the world serving the plain document. -/
theorem claim_c8_witness :
    fetch_url wGzip "r" = some (.urlset ["a", "b"]) ∧
    (∀ root fuel, get_urls_from_sitemap wGzip root fuel =
      get_urls_from_sitemap
        (updateWorld wGzip "r" (.ok false (.plain (.urlset ["a", "b"])))) root fuel) := by
  constructor
  · exact claim_c8_gzip_transparent.1 wGzip "r" true (.urlset ["a", "b"]) (by decide) rfl
  · exact claim_c8_gzip_transparent.2.2.2 wGzip "r" (.urlset ["a", "b"]) (by decide) rfl

/-- C9: `parse_sitemap` returns the bare empty list only for empty
content, whose tuple unpacking would raise; every non-empty document
unpacks to a proper (urls, is-index) pair, and since the loop checks
the fetched content is non-empty before parsing, resolution never ends
in that crash. -/
theorem claim_c9_bare_return_unreachable :
    parse_sitemap .empty = .bare [] ∧
    unpack2 (parse_sitemap .empty) = none ∧
    (∀ doc : XmlDoc, doc ≠ .empty → (unpack2 (parse_sitemap doc)).isSome = true) ∧
    (∀ (w : World) (fuel : Nat) (q acc : List String) (p f s : Nat),
      resolveLoop w q acc p f s fuel ≠ some .crash) := by
  refine ⟨rfl, rfl, ?_, fun w fuel q acc p f s => resolveLoop_ne_crash fuel q acc p f s⟩
  intro doc hdoc
  cases doc with
  | empty => exact absurd rfl hdoc
  | malformed => rfl
  | index locs => rfl
  | urlset locs => rfl

/-- C9 exercised on a malformed document and on a concrete loop run. -/
theorem claim_c9_witness :
    (unpack2 (parse_sitemap .malformed)).isSome = true ∧
    resolveLoop wAllErr ["r"] [] 0 0 0 1 ≠ some .crash :=
  ⟨claim_c9_bare_return_unreachable.2.2.1 .malformed (by decide),
   claim_c9_bare_return_unreachable.2.2.2 wAllErr 1 ["r"] [] 0 0 0⟩

/-- C10: a (url, language) pair is added to the per-language visited
set before the network call — the pair is recorded and the call
attempted whatever the response, including failures — pairs are never
removed, the tracker's final state is identical for any two page
networks, and therefore the summary's per-language counts and grand
total count attempted visits: a failed visit contributes exactly as a
successful one. -/
theorem claim_c10_counts_attempts :
    (∀ (w : PageWorld) (st : Visited) (url langName langHeader : String),
      (langName, url) ∉ st →
      (visit_url w st url langName langHeader).1 = (langName, url) :: st ∧
      ((visit_url w st url langName langHeader).2).isSome = true ∧
      languageCount ((visit_url w st url langName langHeader).1) langName =
        languageCount st langName + 1) ∧
    (∀ (w : PageWorld) (st : Visited) (url langName langHeader : String),
      st.Sublist (visit_url w st url langName langHeader).1) ∧
    (∀ (w w' : PageWorld) (us : List String) (st : Visited),
      (processAll w us st).1 = (processAll w' us st).1) ∧
    (∀ (w w' : PageWorld) (us : List String),
      summaryOf (processAll w us []).1 = summaryOf (processAll w' us []).1 ∧
      totalOf (processAll w us []).1 = totalOf (processAll w' us []).1) := by
  refine ⟨?_, visit_url_sublist, processAll_state_world, ?_⟩
  · intro w st url langName langHeader hmem
    obtain ⟨hst, hsome⟩ := visit_url_not_mem w langHeader hmem
    refine ⟨hst, hsome, ?_⟩
    rw [hst, languageCount_cons_self]
  · intro w w' us
    rw [processAll_state_world w w' us []]
    exact ⟨rfl, rfl⟩

/-- C10 exercised on a visit whose network call raises: the pair is
still recorded and counted. -/
theorem claim_c10_witness :
    (visit_url wpExc [] "u" "French" "fr,fr-FR;q=0.9").1 = [("French", "u")] ∧
    ((visit_url wpExc [] "u" "French" "fr,fr-FR;q=0.9").2).isSome = true ∧
    languageCount ((visit_url wpExc [] "u" "French" "fr,fr-FR;q=0.9").1) "French" =
      languageCount [] "French" + 1 :=
  claim_c10_counts_attempts.1 wpExc [] "u" "French" "fr,fr-FR;q=0.9" (List.not_mem_nil _)

end SitemapCrawler
